import Mathlib

/-!
Verification of the harmonic repository examples (pima_indian.py) and of the
harmonic-mean evidence estimator core they drive, as described by the
specification.  Pure numerical functions of the example script are embedded
over the reals; the chain-splitting, cross-validation, density-model and
evidence-accumulator operations live in the external harmonic package and are
modelled from the spec where noted.
-/

namespace Harmonic

/-! ## Embedding of pima_indian.py numerical functions (src/examples/pima_indian.py) -/

/-- Dot product of two vectors represented as lists, `a.T.dot(b)`. -/
noncomputable def dot (a b : List ℝ) : ℝ := (List.zipWith (fun u v => u * v) a b).sum

/-- `compute_ln_p(theta, x)` from pima_indian.py lines 70-82:
`- np.log(1.0 + 1.0 / np.exp(x.dot(theta)))`, applied row-wise to the
covariate matrix `x`. -/
noncomputable def compute_ln_p (theta : List ℝ) (x : List (List ℝ)) : List ℝ :=
  x.map (fun xi => - Real.log (1 + 1 / Real.exp (dot xi theta)))

/-- `ln_likelihood(y, theta, x)` from pima_indian.py lines 16-32:
`ln_p = compute_ln_p(theta, x); ln_pp = log(1 - exp(ln_p));
y.T.dot(ln_p) + (1-y).T.dot(ln_pp)`. -/
noncomputable def ln_likelihood (y : List ℝ) (theta : List ℝ) (x : List (List ℝ)) : ℝ :=
  let ln_p := compute_ln_p theta x
  let ln_pp := ln_p.map (fun lp => Real.log (1 - Real.exp lp))
  dot y ln_p + dot (y.map (fun yi => 1 - yi)) ln_pp

/-- `ln_prior(tau, theta)` from pima_indian.py lines 34-47:
`0.5 * d * np.log(tau/(2*pi)) - 0.5 * tau * theta.T.dot(theta)` with
`d = len(theta)`. -/
noncomputable def ln_prior (tau : ℝ) (theta : List ℝ) : ℝ :=
  0.5 * (theta.length : ℝ) * Real.log (tau / (2 * Real.pi))
    - 0.5 * tau * dot theta theta

/-- `ln_posterior(theta, tau, x, y)` from pima_indian.py lines 49-68:
sum of the log prior and the log likelihood. -/
noncomputable def ln_posterior (theta : List ℝ) (tau : ℝ) (x : List (List ℝ)) (y : List ℝ) : ℝ :=
  ln_prior tau theta + ln_likelihood y theta x

/-! ## Embedding of the run_example entry guard (pima_indian.py lines 85-108)

`run_example` logs four banner lines, then validates `ndim`, raising
`ValueError` unless `ndim` is 5 or 6, and only afterwards loads the data,
runs the sampler and computes the evidence.  The trace records which stages
execute, in source order. -/

/-- Observable stages of `run_example`, in the order the script performs them. -/
inductive Stage
  | logBanner
  | loadData
  | buildCovariates
  | sampling
  | configureChains
  | crossValidation
  | selectModel
  | fitModel
  | evidence
  deriving DecidableEq, Repr

/-- Result of running the `run_example` prefix: the stages that executed and
the exception raised, if any.  `ValueError` is the only exception modelled;
it is raised by the `ndim` guard at lines 95-97, before `np.loadtxt`. -/
def run_example_trace (ndim : ℤ) : List Stage × Option String :=
  if ndim ≠ 5 ∧ ndim ≠ 6 then
    ([Stage.logBanner], some "ValueError")
  else
    ([Stage.logBanner, Stage.loadData, Stage.buildCovariates, Stage.sampling,
      Stage.configureChains, Stage.crossValidation, Stage.selectModel,
      Stage.fitModel, Stage.evidence], none)

/-! ## Chain store: split and fold (hm.utils.split_data / validation folds)

The chain store lives in the external harmonic package; only its call sites
appear in src/.  The definitions below are modelled from the spec: whole
chains are partitioned deterministically given a seed, `round(tp * n)` chains
go to train, and invalid proportions or fold counts are reported as errors. -/

/-- Errors raised by the chain-store partition operations (spec section 7). -/
inductive SplitError
  | InvalidProportion
  | InsufficientChains
  deriving DecidableEq, Repr

/-- Linear-congruential step of the deterministic pseudo-random source used
for seeded shuffling. -/
def nextRand (r : ℕ) : ℕ := (1103515245 * r + 12345) % 2147483648

/-- Fuelled Fisher-Yates-style deterministic shuffle: at each step the
pseudo-random state selects one remaining element, which is emitted and
removed.  The fuel is the list length, so the fuel never runs out. -/
def shuffleAux {α : Type} [DecidableEq α] : ℕ → ℕ → List α → List α
  | 0, _, l => l
  | fuel + 1, r, l =>
    match l with
    | [] => []
    | b :: bs =>
      let a := (b :: bs).get ⟨r % (b :: bs).length, Nat.mod_lt _ (Nat.succ_pos _)⟩
      a :: shuffleAux fuel (nextRand r) ((b :: bs).erase a)

/-- Modelled from the spec: the deterministic seeded permutation of chains
underlying `split`/`fold` ("partition is deterministic given seed"). -/
def shuffle {α : Type} [DecidableEq α] (seed : ℕ) (l : List α) : List α :=
  shuffleAux l.length seed l

/-- Modelled from the spec: `hm.utils.split_data` /
`split(chains, training_proportion, seed) -> (train, test)` (spec 4.1), which
is absent from src/.  Whole chains are partitioned: `round(tp * n)` chains to
train, the rest to test, deterministically given `seed`; fails with
`InvalidProportion` when either side would be empty. -/
def split_data {α : Type} [DecidableEq α] (chains : List α) (tp : ℚ) (seed : ℕ) :
    Except SplitError (List α × List α) :=
  let n := chains.length
  let k := (round (tp * n)).toNat
  if k = 0 ∨ n ≤ k then Except.error SplitError.InvalidProportion
  else
    let sh := shuffle seed chains
    Except.ok (sh.take k, sh.drop k)

/-- Modelled from the spec: `fold(chains, nfold, seed)` (spec 4.1), absent
from src/.  Produces `nfold` (fold_train, fold_validate) pairs over the
seeded permutation, each validate block disjoint from its own train part;
fails with `InsufficientChains` if `nfold` exceeds the chain count. -/
def fold_data {α : Type} [DecidableEq α] (chains : List α) (nfold : ℕ) (seed : ℕ) :
    Except SplitError (List (List α × List α)) :=
  if nfold = 0 ∨ chains.length < nfold then Except.error SplitError.InsufficientChains
  else
    let sh := shuffle seed chains
    let sz := chains.length / nfold
    Except.ok ((List.range nfold).map (fun i =>
      (sh.take (i * sz) ++ sh.drop (i * sz + sz), (sh.drop (i * sz)).take sz)))

/-! ## Evidence accumulator (hm.Evidence)

The evidence estimator lives in the external harmonic package; only its call
sites appear in src/.  The accumulator below is modelled from the spec
(section 4.4): per-sample log-terms `ln_density(position) - ln_posterior`
are accumulated in log-space by a running log-sum-exp whose shift is the
running maximum observed log-term; the shift value and whether shifting is
active are fields of the accumulator state. -/

/-- Modelled from the spec: the running log-sum-exp state of `hm.Evidence`,
absent from src/.  `shift` records whether shifting is active and
`shift_value` the current shift (the running maximum observed log-term);
`running_sum` holds the sum of `exp(term - shift_value)` over the terms seen
so far. -/
structure EvidenceAcc where
  shift : Bool
  shift_value : ℝ
  running_sum : ℝ
  nsamples : ℕ

/-- The accumulator before any term has been observed: shifting inactive. -/
def initAcc : EvidenceAcc := ⟨false, 0, 0, 0⟩

/-- Modelled from the spec: feed one log-term into the running log-sum-exp.
A term above the current shift re-scales the running sum to the new shift
(the new running maximum); otherwise the term is exponentiated relative to
the current shift and added. -/
noncomputable def addTerm (acc : EvidenceAcc) (t : ℝ) : EvidenceAcc :=
  if acc.nsamples = 0 then
    ⟨true, t, 1, 1⟩
  else if acc.shift_value < t then
    ⟨true, t, acc.running_sum * Real.exp (acc.shift_value - t) + 1,
      acc.nsamples + 1⟩
  else
    ⟨acc.shift, acc.shift_value,
      acc.running_sum + Real.exp (t - acc.shift_value), acc.nsamples + 1⟩

/-- Accumulate a whole list of log-terms, left to right. -/
noncomputable def accumulate (terms : List ℝ) : EvidenceAcc :=
  terms.foldl addTerm initAcc

/-- Modelled from the spec: the reported `ln_evidence_inv` re-adds the shift
to the logarithm of the running sum and divides by the sample count in
log-space. -/
noncomputable def ln_evidence_inv (acc : EvidenceAcc) : ℝ :=
  acc.shift_value + Real.log acc.running_sum - Real.log acc.nsamples

/-- The per-sample harmonic-mean log-terms of a chain collection:
`ln_density(position) - ln_posterior` for each retained sample. -/
noncomputable def logTerms (predict : List ℝ → ℝ)
    (samples : List (List ℝ × ℝ)) : List ℝ :=
  samples.map (fun s => predict s.1 - s.2)

/-- Invariant of the running log-sum-exp after seeing the terms `seen`. -/
def AccInv (acc : EvidenceAcc) (seen : List ℝ) : Prop :=
  acc.shift = true
  ∧ acc.nsamples = seen.length
  ∧ acc.running_sum = (seen.map (fun t => Real.exp (t - acc.shift_value))).sum
  ∧ acc.shift_value ∈ seen
  ∧ ∀ t ∈ seen, t ≤ acc.shift_value

/-! ## Cross-validator (hm.utils.cross_validation)

Modelled from the spec (section 4.3): the cross-validator is absent from
src/.  For each grid entry it fits one fresh model per fold; a fold whose fit
fails contributes the sentinel worst variance `+infinity` (the top element of
`WithTop`), and the per-entry score is the mean across folds. -/

/-- Mean of per-fold validation variances, absorbing the `+infinity`
sentinel: if any fold contributed the sentinel, the mean is the sentinel. -/
def meanScore (l : List (WithTop ℚ)) : WithTop ℚ :=
  l.sum.map (fun s => s / (l.length : ℚ))

/-- Modelled from the spec: the validation variance of one grid entry.  Each
fold fits a fresh model on its train subset (`fitf`, which reports fit
failure as `none`) and evaluates the inverse-evidence variance `score` on its
validation subset; a failed fit contributes the sentinel `+infinity`. -/
def comboScore {η φ μ : Type} (folds : List φ) (fitf : η → φ → Option μ)
    (score : μ → φ → ℚ) (hp : η) : WithTop ℚ :=
  meanScore (folds.map (fun f =>
    match fitf hp f with
    | none => (⊤ : WithTop ℚ)
    | some m => ((score m f : ℚ) : WithTop ℚ)))

/-- Modelled from the spec: `hm.utils.cross_validation` returns one
validation variance per grid entry. -/
def cross_validation {η φ μ : Type} (grid : List η) (folds : List φ)
    (fitf : η → φ → Option μ) (score : μ → φ → ℚ) : List (WithTop ℚ) :=
  grid.map (comboScore folds fitf score)

/-! ## Density model fit (hm.model fit contract)

Modelled from the spec (section 4.2): the density-model families are absent
from src/.  `fit` runs a budgeted iterative optimization and reports
convergence through a boolean flag, leaving the model in a well-defined
fitted state either way. -/

/-- A density model: dimension, per-dimension domain, hyper-parameters and
the fitted state produced by `fit`. -/
structure DensityModel where
  ndim : ℕ
  domains : List ℚ
  fitted : Bool
  params : List ℚ
  deriving DecidableEq, Repr

/-- Modelled from the spec: the budgeted optimization underlying `fit`.
Iterates `step` until a fixed point or until the iteration budget is
exhausted; returns the final iterate and whether it converged. -/
def iterateFit (step : List ℚ → List ℚ) : ℕ → List ℚ → List ℚ × Bool
  | 0, p => if step p = p then (p, true) else (p, false)
  | b + 1, p => if step p = p then (p, true) else iterateFit step b (step p)

/-- Modelled from the spec: `fit(samples, ln_posterior) -> success : Bool`.
The model always ends in a well-defined fitted state; the flag reports
whether the underlying optimization converged. -/
def fit (m : DensityModel) (step : List ℚ → List ℚ) (budget : ℕ)
    (p0 : List ℚ) : DensityModel × Bool :=
  let r := iterateFit step budget p0
  ({ m with fitted := true, params := r.1 }, r.2)

/-! ## Evidence dimension checks (hm.Evidence.add_chains)

Modelled from the spec (section 4.4 failure modes): absent from src/. -/

/-- Errors of the evidence estimator (spec section 7). -/
inductive EvidenceError
  | DimensionMismatch
  | OutOfDomain
  deriving DecidableEq, Repr

/-- A chain collection as handed to `add_chains`: declared dimension plus
flattened samples and their log-posterior values. -/
structure ChainsC where
  ndim : ℕ
  samples : List (List ℚ)
  lnprob : List ℚ
  deriving DecidableEq, Repr

/-- The accumulating evidence estimator state visible to `add_chains`. -/
structure EvidenceState where
  nchains : ℕ
  modelDim : ℕ
  accSamples : List (List ℚ)
  deriving DecidableEq, Repr

/-- Modelled from the spec: `add_chains` fails with `DimensionMismatch` when
the chain dimension disagrees with the model dimension, and otherwise appends
the chain samples unchanged. -/
def add_chains (ev : EvidenceState) (ch : ChainsC) :
    Except EvidenceError EvidenceState :=
  if ch.ndim ≠ ev.modelDim then Except.error EvidenceError.DimensionMismatch
  else Except.ok { ev with accSamples := ev.accSamples ++ ch.samples }

/-- Modelled from the spec: the dimension check on `fit` inputs.  A sample
set containing a vector whose length disagrees with the model's declared
dimension fails with `DimensionMismatch`; on success the samples are passed
on unchanged (never truncated or padded). -/
def fit_checked (modelDim : ℕ) (samples : List (List ℚ)) :
    Except EvidenceError (List (List ℚ)) :=
  if samples.all (fun s => s.length = modelDim) then Except.ok samples
  else Except.error EvidenceError.DimensionMismatch

/-! ## Model selection (pima_indian.py lines 226-266)

The selection logic of `run_example`: each family's best grid entry is the
first index attaining the minimum validation variance (`np.argmin`); the
family with the smaller best variance wins.  Lines 262-266 are embedded as
the source writes them: in the HyperSphere branch the model constructed from
the selected hyper-parameters (lines 264-265) is immediately replaced by a
second construction with `hyper_parameters=None` (line 266). -/

/-- The final density model chosen by `run_example`. -/
inductive SelectedModel
  | MGMM (ndim : ℕ) (domains : List ℚ) (hyper : List ℚ)
  | HyperSphere (ndim : ℕ) (domains : List ℚ) (hyper : Option (List ℚ))
  deriving DecidableEq, Repr

/-- `np.argmin`: index of the first occurrence of the minimum. -/
def argmin : List ℚ → ℕ
  | [] => 0
  | [_] => 0
  | x :: y :: rest =>
    let j := argmin (y :: rest)
    if (y :: rest).getD j 0 < x then j + 1 else 0

/-- The model-selection logic of pima_indian.py lines 226-266, as written in
the source: `best_hyper_param_*` via `argmin`, comparison of the two best
variances, and in the HyperSphere branch the unconditional reconstruction
with `hyper_parameters=None` of line 266. -/
def select_model (ndim : ℕ) (domains_MGMM domains_sphere : List ℚ)
    (vv_MGMM vv_sphere : List ℚ)
    (hp_MGMM : List (List ℚ)) (hp_sphere : List (Option (List ℚ))) :
    SelectedModel :=
  let best_hyper_param_MGMM := hp_MGMM.getD (argmin vv_MGMM) []
  let best_hyper_param_sphere := hp_sphere.getD (argmin vv_sphere) none
  let best_var_MGMM := vv_MGMM.getD (argmin vv_MGMM) 0
  let best_var_sphere := vv_sphere.getD (argmin vv_sphere) 0
  if best_var_MGMM < best_var_sphere then
    SelectedModel.MGMM ndim domains_MGMM best_hyper_param_MGMM
  else
    let _discarded :=
      SelectedModel.HyperSphere ndim domains_sphere best_hyper_param_sphere
    SelectedModel.HyperSphere ndim domains_sphere none

/-- The selection the spec requires (section 9): exactly one fitted candidate
wins on validation variance, with no unconditional override of the selected
model or its hyper-parameters. -/
def select_model_specified (ndim : ℕ) (domains_MGMM domains_sphere : List ℚ)
    (vv_MGMM vv_sphere : List ℚ)
    (hp_MGMM : List (List ℚ)) (hp_sphere : List (Option (List ℚ))) :
    SelectedModel :=
  let best_hyper_param_MGMM := hp_MGMM.getD (argmin vv_MGMM) []
  let best_hyper_param_sphere := hp_sphere.getD (argmin vv_sphere) none
  let best_var_MGMM := vv_MGMM.getD (argmin vv_MGMM) 0
  let best_var_sphere := vv_sphere.getD (argmin vv_sphere) 0
  if best_var_MGMM < best_var_sphere then
    SelectedModel.MGMM ndim domains_MGMM best_hyper_param_MGMM
  else
    SelectedModel.HyperSphere ndim domains_sphere best_hyper_param_sphere

end Harmonic

namespace Harmonic

/-! ## Theorems for C9 and C10 -/

theorem compute_ln_p_sigmoid (t : ℝ) :
    - Real.log (1 + 1 / Real.exp t) = Real.log (1 / (1 + Real.exp (-t))) := by
  rw [Real.exp_neg, one_div, one_div, Real.log_inv]

/-- C9: `ln_posterior(theta, tau, x, y)` equals `ln_prior(tau, theta) +
ln_likelihood(y, theta, x)`; `ln_prior` is the log-density of a zero-mean
isotropic Gaussian with precision `tau`, `0.5*d*ln(tau/(2*pi)) -
0.5*tau*theta.theta`; `ln_likelihood` is `y.ln_p + (1-y).ln(1-p)` with
`ln_p = -ln(1 + exp(-x.theta))`, the log of the logistic sigmoid of
`x.theta`. -/
theorem C9_ln_posterior_decomposition (theta : List ℝ) (tau : ℝ)
    (x : List (List ℝ)) (y : List ℝ) :
    ln_posterior theta tau x y = ln_prior tau theta + ln_likelihood y theta x
    ∧ ln_prior tau theta
        = 0.5 * (theta.length : ℝ) * Real.log (tau / (2 * Real.pi))
            - 0.5 * tau * dot theta theta
    ∧ ln_likelihood y theta x
        = dot y (compute_ln_p theta x)
            + dot (y.map (fun yi => 1 - yi))
                ((compute_ln_p theta x).map (fun lp => Real.log (1 - Real.exp lp)))
    ∧ compute_ln_p theta x
        = x.map (fun xi => - Real.log (1 + Real.exp (- dot xi theta)))
    ∧ compute_ln_p theta x
        = x.map (fun xi => Real.log (1 / (1 + Real.exp (- dot xi theta)))) := by
  refine ⟨rfl, rfl, rfl, ?_, ?_⟩
  · unfold compute_ln_p
    refine List.map_congr_left (fun xi _ => ?_)
    rw [Real.exp_neg, one_div]
  · unfold compute_ln_p
    refine List.map_congr_left (fun xi _ => ?_)
    exact compute_ln_p_sigmoid (dot xi theta)

/-- C10: for every `ndim` other than 5 or 6, `run_example` raises
`ValueError` before any data loading, sampling, or evidence computation; for
`ndim` equal to 5 or 6 no such error is raised. -/
theorem C10_ndim_guard (ndim : ℤ) :
    ((ndim ≠ 5 ∧ ndim ≠ 6) →
      (run_example_trace ndim).2 = some "ValueError"
      ∧ Stage.loadData ∉ (run_example_trace ndim).1
      ∧ Stage.sampling ∉ (run_example_trace ndim).1
      ∧ Stage.evidence ∉ (run_example_trace ndim).1)
    ∧ ((ndim = 5 ∨ ndim = 6) → (run_example_trace ndim).2 = none) := by
  constructor
  · intro h
    rw [run_example_trace, if_pos h]
    refine ⟨rfl, ?_, ?_, ?_⟩ <;> simp
  · intro h
    have hn : ¬ (ndim ≠ 5 ∧ ndim ≠ 6) := by
      rcases h with h | h <;> simp [h]
    rw [run_example_trace, if_neg hn]

/-- Witness for C10 at `ndim = 7` (guard fires) and `ndim = 5` (no error). -/
theorem C10_ndim_guard_witness :
    ((7 : ℤ) ≠ 5 ∧ (7 : ℤ) ≠ 6)
    ∧ (run_example_trace 7).2 = some "ValueError"
    ∧ ((5 : ℤ) = 5 ∨ (5 : ℤ) = 6)
    ∧ (run_example_trace 5).2 = none := by
  refine ⟨by decide, ((C10_ndim_guard 7).1 (by decide)).1, Or.inl rfl,
    (C10_ndim_guard 5).2 (Or.inl rfl)⟩

/-! ## Shuffle, split and fold lemmas -/

theorem shuffleAux_perm {α : Type} [DecidableEq α] :
    ∀ (fuel r : ℕ) (l : List α), (shuffleAux fuel r l).Perm l := by
  intro fuel
  induction fuel with
  | zero => intro r l; exact List.Perm.refl l
  | succ n ih =>
    intro r l
    match l with
    | [] => exact List.Perm.refl []
    | b :: bs =>
      rw [shuffleAux]
      set a := (b :: bs).get ⟨r % (b :: bs).length, Nat.mod_lt _ (Nat.succ_pos _)⟩ with ha
      have hmem : a ∈ b :: bs := List.get_mem _ _ _
      have h1 : (a :: shuffleAux n (nextRand r) ((b :: bs).erase a)).Perm
          (a :: (b :: bs).erase a) :=
        List.Perm.cons a (ih (nextRand r) ((b :: bs).erase a))
      exact h1.trans (List.perm_cons_erase hmem).symm

theorem shuffle_perm {α : Type} [DecidableEq α] (seed : ℕ) (l : List α) :
    (shuffle seed l).Perm l :=
  shuffleAux_perm l.length seed l

theorem shuffle_length {α : Type} [DecidableEq α] (seed : ℕ) (l : List α) :
    (shuffle seed l).length = l.length :=
  (shuffle_perm seed l).length_eq

/-- For a successful fold entry, train ++ validate permutes the shuffled
list: the validate block is exactly the slice removed from the train part. -/
theorem fold_piece_perm {α : Type} (sh : List α) (m sz : ℕ) :
    ((sh.take m ++ sh.drop (m + sz)) ++ (sh.drop m).take sz).Perm sh := by
  have h1 : (sh.drop m).take sz ++ sh.drop (m + sz) = sh.drop m := by
    rw [← List.drop_drop]
    exact List.take_append_drop sz (sh.drop m)
  have h2 : ((sh.take m ++ sh.drop (m + sz)) ++ (sh.drop m).take sz).Perm
      (sh.take m ++ ((sh.drop m).take sz ++ sh.drop (m + sz))) := by
    rw [List.append_assoc]
    exact List.Perm.append_left _ List.perm_append_comm
  rw [h1, List.take_append_drop] at h2
  exact h2

/-- C3: `split` partitions whole chains into two disjoint collections with
exactly `round(training_proportion * total_chains)` chains in train and the
remainder in test; the union of the two collections is the original chain
set with no chain duplicated or dropped, and every fold produced by `fold`
satisfies the same disjoint-union property. -/
theorem C3_partition_invariant {α : Type} [DecidableEq α]
    (chains : List α) (tp : ℚ) (seed nfold : ℕ) :
    (∀ train test, split_data chains tp seed = Except.ok (train, test) →
      train.length = (round (tp * chains.length)).toNat
      ∧ test.length = chains.length - train.length
      ∧ (train ++ test).Perm chains
      ∧ (chains.Nodup → ∀ a ∈ train, a ∉ test))
    ∧ (∀ folds, fold_data chains nfold seed = Except.ok folds →
      ∀ ftrain fvalid, (ftrain, fvalid) ∈ folds →
        (ftrain ++ fvalid).Perm chains
        ∧ (chains.Nodup → ∀ a ∈ fvalid, a ∉ ftrain)) := by
  constructor
  · intro train test hok
    rw [split_data] at hok
    by_cases hg : (round (tp * chains.length)).toNat = 0
        ∨ chains.length ≤ (round (tp * chains.length)).toNat
    · rw [if_pos hg] at hok; exact absurd hok (by simp)
    · rw [if_neg hg] at hok
      have htr : train = (shuffle seed chains).take
          (round (tp * chains.length)).toNat := by
        have := congrArg (fun e => match e with
          | Except.ok (p : List α × List α) => p.1
          | Except.error _ => []) hok
        simpa using this.symm
      have hte : test = (shuffle seed chains).drop
          (round (tp * chains.length)).toNat := by
        have := congrArg (fun e => match e with
          | Except.ok (p : List α × List α) => p.2
          | Except.error _ => []) hok
        simpa using this.symm
      push_neg at hg
      have hk : (round (tp * chains.length)).toNat < chains.length := hg.2
      have hperm : (train ++ test).Perm chains := by
        rw [htr, hte, List.take_append_drop]
        exact shuffle_perm seed chains
      refine ⟨?_, ?_, hperm, ?_⟩
      · rw [htr, List.length_take, shuffle_length]
        exact Nat.min_eq_left hk.le
      · rw [htr, hte, List.length_drop, shuffle_length, List.length_take,
          shuffle_length, Nat.min_eq_left hk.le]
      · intro hnd
        have hnda : (train ++ test).Nodup := (hperm.nodup_iff).mpr hnd
        exact fun a ha hb => ((List.nodup_append.mp hnda).2.2) ha hb
  · intro folds hok ftrain fvalid hmem
    rw [fold_data] at hok
    by_cases hg : nfold = 0 ∨ chains.length < nfold
    · rw [if_pos hg] at hok; exact absurd hok (by simp)
    · rw [if_neg hg] at hok
      have hfolds : folds = (List.range nfold).map (fun i =>
          ((shuffle seed chains).take (i * (chains.length / nfold))
            ++ (shuffle seed chains).drop
                (i * (chains.length / nfold) + chains.length / nfold),
           ((shuffle seed chains).drop (i * (chains.length / nfold))).take
             (chains.length / nfold))) := by
        have := congrArg (fun e => match e with
          | Except.ok (p : List (List α × List α)) => p
          | Except.error _ => []) hok
        simpa using this.symm
      rw [hfolds] at hmem
      obtain ⟨i, _, hi⟩ := List.mem_map.mp hmem
      injection hi with h1 h2
      have hperm : (ftrain ++ fvalid).Perm chains := by
        rw [← h1, ← h2]
        exact (fold_piece_perm (shuffle seed chains) _ _).trans
          (shuffle_perm seed chains)
      refine ⟨hperm, fun hnd a ha hb => ?_⟩
      have hnda : (ftrain ++ fvalid).Nodup := (hperm.nodup_iff).mpr hnd
      exact ((List.nodup_append.mp hnda).2.2) hb ha

/-- Witness for C3 on four chains, `training_proportion = 1/2`, `seed = 0`,
`nfold = 2`: the partition invariant holds for the resulting split and for a
concrete fold. -/
theorem C3_partition_invariant_witness :
    ([0, 1] : List ℕ).length
      = (round ((1 / 2 : ℚ) * (([0, 1, 2, 3] : List ℕ).length : ℚ))).toNat
    ∧ (([0, 1] ++ [2, 3] : List ℕ)).Perm [0, 1, 2, 3]
    ∧ (∀ a ∈ ([0, 1] : List ℕ), a ∉ ([2, 3] : List ℕ))
    ∧ (([2, 3] ++ [0, 1] : List ℕ)).Perm [0, 1, 2, 3] := by
  have h := C3_partition_invariant (α := ℕ) [0, 1, 2, 3] (1 / 2) 0 2
  have hok : split_data [0, 1, 2, 3] (1 / 2) 0 = Except.ok ([0, 1], [2, 3]) := by
    have hk : (round ((1 / 2 : ℚ) * (([0, 1, 2, 3] : List ℕ).length : ℚ))).toNat
        = 2 := by
      norm_num [round_eq]
      decide
    simp only [split_data, hk]
    norm_num
    exact ⟨rfl, rfl⟩
  have hfok : fold_data ([0, 1, 2, 3] : List ℕ) 2 0
      = Except.ok [([2, 3], [0, 1]), ([0, 1], [2, 3])] := by rfl
  have hs := h.1 [0, 1] [2, 3] hok
  have hf := h.2 _ hfok [2, 3] [0, 1] (by simp)
  exact ⟨hs.1, hs.2.2.1, hs.2.2.2 (by decide), hf.1⟩

/-! ## C4: determinism of split/fold and the concrete 4-chain scenario -/

/-- One 2-dimensional chain of 100 samples (sample = parameter vector and its
log posterior), as in the spec's concrete scenario. -/
def chain2d (i : ℚ) : List (List ℚ × ℚ) := List.replicate 100 ([i, i], 0)

/-- Four chains of 100 samples each in 2 dimensions. -/
def pimaChains : List (List (List ℚ × ℚ)) :=
  [chain2d 0, chain2d 1, chain2d 2, chain2d 3]

/-- C4: `split`/`fold` with the same seed and inputs produce identical
partitions; for 4 chains of 100 samples each in 2 dimensions with
`training_proportion = 0.5` and `seed = 0`, exactly 2 chains go to train and
2 to test, and re-running with `seed = 0` reproduces the same assignment. -/
theorem C4_split_determinism :
    (∀ (α : Type) [DecidableEq α] (chains : List α) (tp : ℚ) (seed nfold : ℕ),
      split_data chains tp seed = split_data chains tp seed
      ∧ fold_data chains nfold seed = fold_data chains nfold seed)
    ∧ (∃ train test,
        split_data pimaChains (1 / 2) 0 = Except.ok (train, test)
        ∧ train.length = 2 ∧ test.length = 2
        ∧ split_data pimaChains (1 / 2) 0 = Except.ok (train, test)) := by
  refine ⟨fun α _ chains tp seed nfold => ⟨rfl, rfl⟩, ?_⟩
  have hlen : pimaChains.length = 4 := rfl
  have hk : (round ((1 / 2 : ℚ) * (pimaChains.length : ℚ))).toNat = 2 := by
    rw [hlen]
    norm_num [round_eq]
    decide
  have heq : split_data pimaChains (1 / 2) 0
      = Except.ok ((shuffle 0 pimaChains).take 2, (shuffle 0 pimaChains).drop 2) := by
    simp only [split_data, hk, hlen]
    norm_num
    exact ⟨rfl, rfl⟩
  refine ⟨(shuffle 0 pimaChains).take 2, (shuffle 0 pimaChains).drop 2,
    heq, ?_, ?_, heq⟩
  · rw [List.length_take, shuffle_length, hlen]
    decide
  · rw [List.length_drop, shuffle_length, hlen]

/-! ## C8: invalid proportions -/

/-- C8: whenever `round(training_proportion * total_chains)` leaves zero
chains on either the train or the test side, `split` fails with
`InvalidProportion`; the failure is the immediate result of the split
operation itself. -/
theorem C8_invalid_proportion {α : Type} [DecidableEq α]
    (chains : List α) (tp : ℚ) (seed : ℕ)
    (h : (round (tp * chains.length)).toNat = 0
      ∨ chains.length ≤ (round (tp * chains.length)).toNat) :
    split_data chains tp seed = Except.error SplitError.InvalidProportion := by
  rw [split_data]
  exact if_pos h

/-- Witness for C8: `training_proportion = 0` on four chains puts zero chains
in train, so the split reports `InvalidProportion`. -/
theorem C8_invalid_proportion_witness :
    split_data ([0, 1, 2, 3] : List ℕ) 0 0
      = Except.error SplitError.InvalidProportion :=
  C8_invalid_proportion [0, 1, 2, 3] 0 0 (Or.inl (by simp))

/-! ## C2: the running log-sum-exp of the evidence accumulator -/

theorem addTerm_inv (acc : EvidenceAcc) (seen : List ℝ) (h : AccInv acc seen)
    (hne : seen ≠ []) (t : ℝ) : AccInv (addTerm acc t) (seen ++ [t]) := by
  obtain ⟨hs, hn, hr, hmem, hub⟩ := h
  have hn0 : acc.nsamples ≠ 0 := by
    rw [hn]
    simpa using hne
  unfold AccInv addTerm
  rw [if_neg hn0]
  by_cases hlt : acc.shift_value < t
  · rw [if_pos hlt]
    refine ⟨rfl, by simp [hn], ?_, List.mem_append.mpr (Or.inr (by simp)), ?_⟩
    · show acc.running_sum * Real.exp (acc.shift_value - t) + 1
        = ((seen ++ [t]).map (fun s => Real.exp (s - t))).sum
      rw [hr, List.map_append, List.sum_append, ← List.sum_map_mul_right]
      congr 1
      · refine congrArg List.sum (List.map_congr_left fun s _ => ?_)
        rw [← Real.exp_add]
        ring_nf
      · simp
    · intro s hsm
      rcases List.mem_append.mp hsm with h1 | h1
      · exact (hub s h1).trans hlt.le
      · simp only [List.mem_singleton] at h1
        simp [h1]
  · rw [if_neg hlt]
    refine ⟨hs, by simp [hn], ?_, List.mem_append.mpr (Or.inl hmem), ?_⟩
    · show acc.running_sum + Real.exp (t - acc.shift_value)
        = ((seen ++ [t]).map (fun s => Real.exp (s - acc.shift_value))).sum
      rw [hr, List.map_append, List.sum_append]
      simp
    · intro s hsm
      rcases List.mem_append.mp hsm with h1 | h1
      · exact hub s h1
      · simp only [List.mem_singleton] at h1
        subst h1
        exact not_lt.mp hlt

theorem accumulate_inv_aux :
    ∀ (ts : List ℝ) (acc : EvidenceAcc) (seen : List ℝ),
      AccInv acc seen → seen ≠ [] → AccInv (ts.foldl addTerm acc) (seen ++ ts) := by
  intro ts
  induction ts with
  | nil =>
    intro acc seen h _
    simpa using h
  | cons t ts ih =>
    intro acc seen h hne
    have h2 := addTerm_inv acc seen h hne t
    have h3 := ih (addTerm acc t) (seen ++ [t]) h2 (by simp)
    simpa using h3

theorem accumulate_spec (t : ℝ) (ts : List ℝ) :
    AccInv (accumulate (t :: ts)) (t :: ts) := by
  have base : AccInv (addTerm initAcc t) [t] := by
    unfold AccInv addTerm initAcc
    simp
  have hfold : accumulate (t :: ts) = ts.foldl addTerm (addTerm initAcc t) := rfl
  rw [hfold]
  have h := accumulate_inv_aux ts (addTerm initAcc t) [t] base (by simp)
  simpa using h

/-- For every nonempty list of log-terms, the shifted running log-sum-exp
reports the log of the arithmetic mean of the exponentiated terms, shifting
is active, and the shift is the running maximum observed log-term. -/
theorem evidence_logsumexp_terms (terms : List ℝ) (hne : terms ≠ []) :
    ln_evidence_inv (accumulate terms)
      = Real.log ((terms.map Real.exp).sum / terms.length)
    ∧ (accumulate terms).shift = true
    ∧ (accumulate terms).shift_value ∈ terms
    ∧ (∀ t ∈ terms, t ≤ (accumulate terms).shift_value)
    ∧ (accumulate terms).nsamples = terms.length := by
  obtain ⟨t, ts, rfl⟩ := List.exists_cons_of_ne_nil hne
  obtain ⟨hs, hn, hr, hmem, hub⟩ := accumulate_spec t ts
  refine ⟨?_, hs, hmem, hub, hn⟩
  have hpos : 0 < ((t :: ts).map Real.exp).sum := by
    refine List.sum_pos _ (fun x hx => ?_) (by simp)
    obtain ⟨s, _, rfl⟩ := List.mem_map.mp hx
    exact Real.exp_pos s
  have hsum : (accumulate (t :: ts)).running_sum
      = ((t :: ts).map Real.exp).sum
          * Real.exp (- (accumulate (t :: ts)).shift_value) := by
    rw [hr, ← List.sum_map_mul_right]
    refine congrArg List.sum (List.map_congr_left fun s _ => ?_)
    rw [← Real.exp_add]
    ring_nf
  have hlen : (0 : ℝ) < ((t :: ts).length : ℝ) := by
    exact_mod_cast Nat.succ_pos ts.length
  unfold ln_evidence_inv
  rw [hsum, Real.log_mul (ne_of_gt hpos) (Real.exp_ne_zero _), Real.log_exp,
    hn, Real.log_div (ne_of_gt hpos) (ne_of_gt hlen)]
  ring

/-- C2: for a finalized evidence computation over non-empty test chains, the
reported `ln_evidence_inv` equals the log of the arithmetic mean of
`exp(ln_density(position) - ln_posterior)` over all retained samples, the
accumulation being the running log-sum-exp whose shift is the running maximum
observed log-term, subtracted before exponentiating and re-added at the end;
the shift value and whether shifting is active are observable fields of the
accumulator. -/
theorem C2_ln_evidence_inv_logsumexp (predict : List ℝ → ℝ)
    (samples : List (List ℝ × ℝ)) (hne : samples ≠ []) :
    ln_evidence_inv (accumulate (logTerms predict samples))
      = Real.log (((logTerms predict samples).map Real.exp).sum / samples.length)
    ∧ (accumulate (logTerms predict samples)).shift = true
    ∧ (accumulate (logTerms predict samples)).shift_value ∈ logTerms predict samples
    ∧ (∀ t ∈ logTerms predict samples,
        t ≤ (accumulate (logTerms predict samples)).shift_value)
    ∧ (accumulate (logTerms predict samples)).nsamples = samples.length := by
  have hterms : logTerms predict samples ≠ [] := by
    unfold logTerms
    simpa using hne
  have h := evidence_logsumexp_terms (logTerms predict samples) hterms
  have hlen : (logTerms predict samples).length = samples.length :=
    List.length_map _ _
  rw [hlen] at h
  exact h

/-- Witness for C2 on a single one-sample chain with a constant density. -/
theorem C2_ln_evidence_inv_logsumexp_witness :
    ([(([0] : List ℝ), (0 : ℝ))] ≠ ([] : List (List ℝ × ℝ)))
    ∧ ln_evidence_inv (accumulate (logTerms (fun _ => 0) [([0], 0)]))
        = Real.log (((logTerms (fun _ => 0) [([0], 0)]).map Real.exp).sum
            / ([(([0] : List ℝ), (0 : ℝ))] : List (List ℝ × ℝ)).length) :=
  ⟨by simp, (C2_ln_evidence_inv_logsumexp (fun _ => 0) [([0], 0)] (by simp)).1⟩

/-! ## C5: sentinel variances in the cross-validation sweep -/

theorem list_sum_eq_top_iff (l : List (WithTop ℚ)) : l.sum = ⊤ ↔ ⊤ ∈ l := by
  induction l with
  | nil => simp
  | cons a l ih => simp [WithTop.add_eq_top, ih, eq_comm]

theorem meanScore_eq_top_iff (l : List (WithTop ℚ)) : meanScore l = ⊤ ↔ ⊤ ∈ l := by
  unfold meanScore
  rw [← list_sum_eq_top_iff]
  cases l.sum with
  | top => simp
  | coe a => simp

/-- C5: a failing fold's fit does not abort the sweep: the grid search
returns exactly one variance per grid entry, a combination with a failing
fold scores the sentinel worst variance `+infinity`, and a combination all of
whose folds fit successfully receives a finite (non-sentinel) variance. -/
theorem C5_cross_validation_sentinel {η φ μ : Type} (grid : List η)
    (folds : List φ) (fitf : η → φ → Option μ) (score : μ → φ → ℚ) :
    (cross_validation grid folds fitf score).length = grid.length
    ∧ cross_validation grid folds fitf score
        = grid.map (comboScore folds fitf score)
    ∧ (∀ hp, (∃ f ∈ folds, fitf hp f = none) →
        comboScore folds fitf score hp = ⊤)
    ∧ (∀ hp, (∀ f ∈ folds, fitf hp f ≠ none) →
        comboScore folds fitf score hp ≠ ⊤) := by
  refine ⟨List.length_map _ _, rfl, ?_, ?_⟩
  · rintro hp ⟨f, hf, hfit⟩
    unfold comboScore
    rw [meanScore_eq_top_iff]
    refine List.mem_map.mpr ⟨f, hf, ?_⟩
    rw [hfit]
  · intro hp hall htop
    unfold comboScore at htop
    rw [meanScore_eq_top_iff] at htop
    obtain ⟨f, hf, hfeq⟩ := List.mem_map.mp htop
    cases hfit : fitf hp f with
    | none => exact hall f hf hfit
    | some m =>
      rw [hfit] at hfeq
      exact WithTop.coe_ne_top hfeq

/-- Witness for C5: a two-entry grid over a single fold where entry 0's fit
fails and entry 1's fit succeeds. -/
theorem C5_cross_validation_sentinel_witness :
    (∃ f ∈ ([0] : List ℕ),
      (fun (hp : ℕ) (_ : ℕ) => if hp = 0 then (none : Option ℕ) else some 0) 0 f
        = none)
    ∧ comboScore ([0] : List ℕ)
        (fun (hp : ℕ) (_ : ℕ) => if hp = 0 then (none : Option ℕ) else some 0)
        (fun _ _ => (1 : ℚ)) 0 = ⊤
    ∧ comboScore ([0] : List ℕ)
        (fun (hp : ℕ) (_ : ℕ) => if hp = 0 then (none : Option ℕ) else some 0)
        (fun _ _ => (1 : ℚ)) 1 ≠ ⊤
    ∧ (cross_validation [0, 1] ([0] : List ℕ)
        (fun (hp : ℕ) (_ : ℕ) => if hp = 0 then (none : Option ℕ) else some 0)
        (fun _ _ => (1 : ℚ))).length = 2 := by
  have h := C5_cross_validation_sentinel [0, 1] ([0] : List ℕ)
      (fun (hp : ℕ) (_ : ℕ) => if hp = 0 then (none : Option ℕ) else some 0)
      (fun _ _ => (1 : ℚ))
  exact ⟨⟨0, by simp, by simp⟩, h.2.2.1 0 ⟨0, by simp, by simp⟩,
    h.2.2.2 1 (fun f hf => by simp), h.1⟩

/-! ## C6: fit totality and the convergence flag -/

theorem iterateFit_flag (step : List ℚ → List ℚ) :
    ∀ (budget : ℕ) (p : List ℚ),
      (iterateFit step budget p).2 = true
        ↔ step (iterateFit step budget p).1 = (iterateFit step budget p).1 := by
  intro budget
  induction budget with
  | zero =>
    intro p
    by_cases h : step p = p <;> simp [iterateFit, h]
  | succ b ih =>
    intro p
    by_cases h : step p = p
    · simp [iterateFit, h]
    · simp only [iterateFit, if_neg h]
      exact ih (step p)

/-- C6: `fit` always returns a boolean success flag together with a model in
a well-defined fitted state (fitted, same dimension and domain); the flag is
`true` exactly when the budgeted optimization reached a fixed point, so a fit
that fails to converge returns `false` rather than throwing. -/
theorem C6_fit_flag_total (m : DensityModel) (step : List ℚ → List ℚ)
    (budget : ℕ) (p0 : List ℚ) :
    (fit m step budget p0).1.fitted = true
    ∧ (fit m step budget p0).1.ndim = m.ndim
    ∧ (fit m step budget p0).1.domains = m.domains
    ∧ ((fit m step budget p0).2 = true
        ↔ step (fit m step budget p0).1.params = (fit m step budget p0).1.params)
    ∧ ((fit m step budget p0).2 = false
        ↔ step (fit m step budget p0).1.params ≠ (fit m step budget p0).1.params) := by
  have h : (fit m step budget p0).2 = true
      ↔ step (fit m step budget p0).1.params = (fit m step budget p0).1.params :=
    iterateFit_flag step budget p0
  refine ⟨rfl, rfl, rfl, h, ?_⟩
  constructor
  · intro hf heq
    have ht := h.mpr heq
    rw [hf] at ht
    exact absurd ht (by simp)
  · intro hne
    cases hb : (fit m step budget p0).2
    · rfl
    · exact absurd (h.mp hb) hne

/-! ## C7: dimension mismatches are rejected, never repaired -/

/-- C7: a chain whose dimension disagrees with the model's makes
`add_chains` fail with `DimensionMismatch`; `fit` on a sample set with a
mismatched vector fails with `DimensionMismatch`; successful calls pass the
samples through unchanged (no truncation or padding). -/
theorem C7_dimension_mismatch :
    (∀ (ev : EvidenceState) (ch : ChainsC), ch.ndim ≠ ev.modelDim →
      add_chains ev ch = Except.error EvidenceError.DimensionMismatch)
    ∧ (∀ (ev : EvidenceState) (ch : ChainsC) (res : EvidenceState),
        add_chains ev ch = Except.ok res →
          res.accSamples = ev.accSamples ++ ch.samples)
    ∧ (∀ (d : ℕ) (samples : List (List ℚ)), (∃ s ∈ samples, s.length ≠ d) →
        fit_checked d samples = Except.error EvidenceError.DimensionMismatch)
    ∧ (∀ (d : ℕ) (samples res : List (List ℚ)),
        fit_checked d samples = Except.ok res → res = samples) := by
  refine ⟨?_, ?_, ?_, ?_⟩
  · intro ev ch h
    unfold add_chains
    rw [if_pos h]
  · intro ev ch res h
    unfold add_chains at h
    by_cases hd : ch.ndim ≠ ev.modelDim
    · rw [if_pos hd] at h
      exact absurd h (by simp)
    · rw [if_neg hd] at h
      cases h
      rfl
  · intro d samples hex
    obtain ⟨s, hsmem, hsne⟩ := hex
    have hcond : ¬ (samples.all (fun s => s.length = d) = true) := by
      simp only [List.all_eq_true, decide_eq_true_eq]
      intro hall
      exact hsne (hall s hsmem)
    unfold fit_checked
    rw [if_neg hcond]
  · intro d samples res h
    unfold fit_checked at h
    by_cases hc : samples.all (fun s => s.length = d) = true
    · rw [if_pos hc] at h
      cases h
      rfl
    · rw [if_neg hc] at h
      exact absurd h (by simp)

/-- Witness for C7: a 3-dimensional chain against a 2-dimensional model, and
a fit input with a 1-dimensional vector against a 2-dimensional model. -/
theorem C7_dimension_mismatch_witness :
    ((⟨3, [[1, 2, 3]], [0]⟩ : ChainsC).ndim
      ≠ (⟨1, 2, []⟩ : EvidenceState).modelDim)
    ∧ add_chains ⟨1, 2, []⟩ ⟨3, [[1, 2, 3]], [0]⟩
        = Except.error EvidenceError.DimensionMismatch
    ∧ (∃ s ∈ ([[(0 : ℚ)]] : List (List ℚ)), s.length ≠ 2)
    ∧ fit_checked 2 [[(0 : ℚ)]]
        = Except.error EvidenceError.DimensionMismatch := by
  have h := C7_dimension_mismatch
  exact ⟨by decide, h.1 ⟨1, 2, []⟩ ⟨3, [[1, 2, 3]], [0]⟩ (by decide),
    ⟨[0], by simp, by simp⟩, h.2.2.1 2 [[0]] ⟨[0], by simp, by simp⟩⟩

/-! ## C1: the unconditional HyperSphere override of line 266 -/

/-- C1 fails on the code: at validation variances `[2]` (MGMM) and `[1]`
(HyperSphere) with sphere grid `[some [3]]`, the HyperSphere family wins the
sweep, but line 266 unconditionally rebuilds the model with
`hyper_parameters=None`, discarding the grid entry `some [3]` selected by
cross-validation; the selection the spec requires keeps it. -/
theorem C1_selection_override_bug :
    select_model 5 [1 / 100, 1] [1 / 100, 1] [2] [1] [[1]] [some [3]]
      = SelectedModel.HyperSphere 5 [1 / 100, 1] none
    ∧ select_model_specified 5 [1 / 100, 1] [1 / 100, 1] [2] [1] [[1]] [some [3]]
      = SelectedModel.HyperSphere 5 [1 / 100, 1] (some [3])
    ∧ select_model 5 [1 / 100, 1] [1 / 100, 1] [2] [1] [[1]] [some [3]]
      ≠ select_model_specified 5 [1 / 100, 1] [1 / 100, 1] [2] [1] [[1]]
          [some [3]] := by
  have hcond : ¬ (([2] : List ℚ).getD (argmin [2]) 0
      < ([1] : List ℚ).getD (argmin [1]) 0) := by
    norm_num [argmin]
  have hA : select_model 5 [1 / 100, 1] [1 / 100, 1] [2] [1] [[1]] [some [3]]
      = SelectedModel.HyperSphere 5 [1 / 100, 1] none := by
    unfold select_model
    rw [if_neg hcond]
  have hB : select_model_specified 5 [1 / 100, 1] [1 / 100, 1] [2] [1] [[1]]
      [some [3]] = SelectedModel.HyperSphere 5 [1 / 100, 1] (some [3]) := by
    unfold select_model_specified
    rw [if_neg hcond]
    rfl
  refine ⟨hA, hB, ?_⟩
  rw [hA, hB]
  simp

end Harmonic
